import Mathlib

/-!
Shallow embedding of the connectz-rust engine (src/grid.rs, src/game.rs,
src/lib.rs) and proofs of the specification claims about it.

Machine integers: the Rust code uses `u32` coordinates and counters and
`usize` lengths.  Coordinates and counters are modelled as `Nat`; the one
place where `u32` wrapping is observable (`as u32` casts in coordinate
arithmetic and in the landing row of `insert_piece`) is modelled with an
explicit `% 2 ^ 32`.
-/

namespace ConnectZ

/-- Players are `u8` identifiers (`type Player = u8` in lib.rs); the replay
loop only ever uses 1 and 2. -/
abbrev Player := Nat

/-- The `Outcome` enum of lib.rs. -/
inductive Outcome where
  | Draw
  | PlayerWin (p : Player)
  | Incomplete
  | IllegalContinue
  | IllegalRow
  | IllegalColumn
  | IllegalGame
  | InvalidFile
  | FileNotFound
  deriving DecidableEq, Repr

/-- The u32 modulus, 2 ^ 32: `i64 as u32` casts reduce modulo this. -/
def U32 : Nat := 4294967296

/-- `struct Direction(i8, i8)` of grid.rs, components modelled as integers
(the four constants below use only -1, 0, 1). -/
structure Direction where
  dc : Int
  dr : Int
  deriving DecidableEq, Repr

def HORIZONTAL : Direction := ⟨1, 0⟩

def VERTICAL : Direction := ⟨0, 1⟩

def FORWARD_DIAGONAL : Direction := ⟨1, 1⟩

def BACKWARD_DIAGONAL : Direction := ⟨-1, 1⟩

/-- `ALL_DIRECTIONS` of grid.rs. -/
def ALL_DIRECTIONS : List Direction :=
  [HORIZONTAL, VERTICAL, FORWARD_DIAGONAL, BACKWARD_DIAGONAL]

/-- Componentwise negation of a direction (used to state the direction
symmetry property of `get_streak`). -/
def Direction.neg (d : Direction) : Direction := ⟨-d.dc, -d.dr⟩

/-- `struct Location(u32, u32)` of grid.rs: (column, row), zero based. -/
structure Location where
  col : Nat
  row : Nat
  deriving DecidableEq, Repr

/-- `impl Add<Direction> for Location` of grid.rs: fails at the left or
bottom edge, otherwise adds componentwise in `i64` and casts back with
`as u32` (wrapping, hence `% U32`). -/
def locAdd (l : Location) (d : Direction) : Option Location :=
  if l.col = 0 ∧ d.dc < 0 then none
  else if l.row = 0 ∧ d.dr < 0 then none
  else some ⟨(((l.col : Int) + d.dc) % (U32 : Int)).toNat,
             (((l.row : Int) + d.dr) % (U32 : Int)).toNat⟩

/-- `impl Sub<Direction> for Location` of grid.rs. -/
def locSub (l : Location) (d : Direction) : Option Location :=
  if l.col = 0 ∧ d.dc > 0 then none
  else if l.row = 0 ∧ d.dr > 0 then none
  else some ⟨(((l.col : Int) - d.dc) % (U32 : Int)).toNat,
             (((l.row : Int) - d.dr) % (U32 : Int)).toNat⟩

/-- `struct Grid` of grid.rs: a vector of columns (each a bottom-up stack
of pieces) plus the maximum column height. -/
structure Grid where
  values : List (List Player)
  max_height : Nat
  deriving DecidableEq, Repr

/-- `Grid::with_dimensions`: `width` empty columns. -/
def Grid.with_dimensions (width height : Nat) : Grid :=
  ⟨List.replicate width [], height⟩

/-- `Grid::at` (`at` is a Lean keyword, hence the name `atLoc`): the
occupant of a cell, `none` when the column is out of range or the row is
above the column's stack. -/
def Grid.atLoc (g : Grid) (loc : Location) : Option Player :=
  match g.values.get? loc.col with
  | some col => col.get? loc.row
  | none => none

/-- `Grid::is_full`: every column has reached `max_height`. -/
def Grid.is_full (g : Grid) : Bool :=
  g.values.all (fun col => col.length == g.max_height)

/-- `Grid::insert_piece`: the only mutator.  Out-of-range column is
IllegalColumn, full column is IllegalRow, otherwise the piece is pushed on
top of the column and the landing coordinate `(column, length as u32)` is
returned together with the updated grid. -/
def Grid.insert_piece (g : Grid) (player : Player) (column : Nat) :
    Except Outcome (Grid × Location) :=
  match g.values.get? column with
  | none => .error .IllegalColumn
  | some col =>
    if g.max_height ≤ col.length then .error .IllegalRow
    else .ok (⟨g.values.set column (col ++ [player]), g.max_height⟩,
              ⟨column, col.length % U32⟩)

/-- Total number of pieces on the board (used to size the fuel of the
`get_streak` walks). -/
def Grid.pieces (g : Grid) : Nat := (g.values.map List.length).sum

/-- One while-loop of `Grid::get_streak`: starting from `pos`, repeatedly
step with `step _ d` and count matching occupied cells, stopping at an
edge, an empty or out-of-range cell, or an opponent cell.  The loop of the
source has no bound; `fuel` is an explicit bound on the number of
iterations, and `get_streak` below passes `pieces + 1`, which is enough to
reproduce every terminating run of the source loop (each counted iteration
consumes a distinct occupied cell). -/
def walkDir (g : Grid) (p : Player) (step : Location → Direction → Option Location)
    (d : Direction) : Nat → Location → Nat
  | 0, _ => 0
  | fuel + 1, pos =>
    match step pos d with
    | none => 0
    | some pos2 =>
      match g.atLoc pos2 with
      | none => 0
      | some q => if q = p then 1 + walkDir g p step d fuel pos2 else 0

/-- `Grid::get_streak`: 0 at an empty or out-of-range start, otherwise 1
for the start cell plus the two directional walks (the second walk restarts
from `start`, not from the first walk's endpoint). -/
def Grid.get_streak (g : Grid) (start : Location) (d : Direction) : Nat :=
  match g.atLoc start with
  | none => 0
  | some p =>
    1 + walkDir g p locAdd d (g.pieces + 1) start + walkDir g p locSub d (g.pieces + 1) start

/-- `struct Game` of game.rs.  `moves_made: HashMap<Player, u32>` is
modelled as an association list with at most one entry per player. -/
structure Game where
  win_length : Nat
  grid : Grid
  moves_made : List (Player × Nat)
  last_move : Option Location
  deriving DecidableEq, Repr

/-- `HashMap::get` on the association list model. -/
def lookupCount : List (Player × Nat) → Player → Option Nat
  | [], _ => none
  | (q, v) :: rest, p => if q = p then some v else lookupCount rest p

/-- `moves_made.entry(player).and_modify(|v| *v += 1).or_insert(1)`: the
stored counter is a `u32`, so the increment wraps modulo 2 ^ 32 (a release
build wraps; a debug build panics at the same point). -/
def bumpCount : List (Player × Nat) → Player → List (Player × Nat)
  | [], p => [(p, 1)]
  | (q, v) :: rest, p =>
    if q = p then (q, (v + 1) % U32) :: rest else (q, v) :: bumpCount rest p

/-- `Game::new`: rejects configurations where the run length exceeds both
dimensions, otherwise a fresh game with an empty grid, empty move-count
map and no last move. -/
def Game.new (width height win_length : Nat) : Except Outcome Game :=
  if win_length > width ∧ win_length > height then .error .IllegalGame
  else .ok ⟨win_length, Grid.with_dimensions width height, [], none⟩

/-- `Game::could_win`: the player's recorded move count has reached
`win_length` (false when the player has no entry). -/
def Game.could_win (g : Game) (p : Player) : Bool :=
  match lookupCount g.moves_made p with
  | some v => decide (g.win_length ≤ v)
  | none => false

/-- The state update of `Game::make_move` after a successful
`insert_piece`: store the new grid, record the landing location in
`last_move` and bump the mover's count. -/
def Game.apply_move (g : Game) (p : Player) (grid2 : Grid) (loc : Location) : Game :=
  ⟨g.win_length, grid2, bumpCount g.moves_made p, some loc⟩

/-- The four-direction scan of `Game::make_move`: some direction yields a
streak of at least `win_length` from `loc`. -/
def Game.streak_check (g : Game) (loc : Location) : Bool :=
  ALL_DIRECTIONS.any (fun d => decide (g.win_length ≤ g.grid.get_streak loc d))

/-- `Game::make_move`.  On a failed drop the outcome is returned with the
state untouched.  On a successful drop the state is updated, then the win
check runs (guarded by `could_win`); the scan start is the `last_move` the
update just set to `some loc` (the source reads it back with
`last_move.expect("")`, see the safety claim), then the full-board check. -/
def Game.make_move (g : Game) (p : Player) (column : Nat) : Game × Option Outcome :=
  match g.grid.insert_piece p column with
  | .error o => (g, some o)
  | .ok (grid2, loc) =>
    let g2 := g.apply_move p grid2 loc
    if g2.could_win p && g2.streak_check loc then (g2, some (.PlayerWin p))
    else if grid2.is_full then (g2, some .Draw)
    else (g2, none)

/-- The turn rotation of `Game::play` (`1 => 2, 2 => 1, _ => ()`). -/
def nextPlayer : Nat → Nat
  | 1 => 2
  | 2 => 1
  | p => p

/-- The loop body of `Game::play`, recursing over the remaining moves with
the current state and current player.  A `PlayerWin` result is demoted to
`IllegalContinue` when more moves follow (`moves.len() > idx + 1`). -/
def playAux : Game → Nat → List Nat → Outcome
  | _, _, [] => .Incomplete
  | g, player, column :: rest =>
    match g.make_move player column with
    | (_, some (.PlayerWin q)) => if rest.isEmpty then .PlayerWin q else .IllegalContinue
    | (_, some o) => o
    | (g2, none) => playAux g2 (nextPlayer player) rest

/-- `Game::play`: replay the move list starting with player 1. -/
def Game.play (g : Game) (moves : List Nat) : Outcome :=
  playAux g 1 moves

/-- Run a prefix of a replay: the state and player about to move after the
given moves, or `none` if some move in the prefix already produced a
terminal outcome. -/
def runMoves : Game → Nat → List Nat → Option (Game × Nat)
  | g, p, [] => some (g, p)
  | g, p, column :: rest =>
    match g.make_move p column with
    | (g2, none) => runMoves g2 (nextPlayer p) rest
    | (_, some _) => none

-- Sanity checks against the concrete scenarios of the specification.
example : Game.new 3 3 3 = .ok ⟨3, Grid.with_dimensions 3 3, [], none⟩ := rfl
example : (Game.play ⟨3, Grid.with_dimensions 3 3, [], none⟩ [0, 1, 0, 1, 0]) =
    Outcome.PlayerWin 1 := by decide
example : (Game.play ⟨3, Grid.with_dimensions 3 3, [], none⟩ [0, 1, 0, 1, 0, 2]) =
    Outcome.IllegalContinue := by decide
example : (Game.play ⟨3, Grid.with_dimensions 3 3, [], none⟩ [0, 1]) =
    Outcome.Incomplete := by decide
example : (Game.play ⟨3, Grid.with_dimensions 3 3, [], none⟩ [5]) =
    Outcome.IllegalColumn := by decide
example : (Game.play ⟨3, Grid.with_dimensions 3 3, [], none⟩ [0, 0, 0, 0]) =
    Outcome.IllegalRow := by decide
example : (Game.play ⟨2, Grid.with_dimensions 2 2, [], none⟩ [0, 0, 1, 1]) =
    Outcome.IllegalContinue := by decide

/-! ### Basic facts about the embedding -/

/-- A column read from an empty board is the empty list. -/
theorem with_dimensions_atLoc (width height : Nat) (loc : Location) :
    (Grid.with_dimensions width height).atLoc loc = none := by
  unfold Grid.with_dimensions Grid.atLoc
  cases h : (List.replicate width ([] : List Player)).get? loc.col with
  | none => rfl
  | some col =>
    have hcol : col = [] := List.eq_of_mem_replicate (List.get?_mem h)
    simp [hcol]

/-- C2: `Game::new` fails with IllegalGame exactly when the run length
exceeds both the width and the height; otherwise it succeeds and the fresh
game has the given run length, an all-empty board, an empty move-count map
and no recorded last move. -/
theorem new_illegal_iff (width height win_length : Nat) :
    (Game.new width height win_length = .error .IllegalGame ↔
      win_length > width ∧ win_length > height) ∧
    (¬(win_length > width ∧ win_length > height) →
      Game.new width height win_length =
        .ok ⟨win_length, Grid.with_dimensions width height, [], none⟩ ∧
      ∀ loc, (Grid.with_dimensions width height).atLoc loc = none) := by
  unfold Game.new
  by_cases h : win_length > width ∧ win_length > height
  · simp [h]
  · simp [h, with_dimensions_atLoc]

/-- Witness for the construction claim at concrete inputs. -/
theorem new_illegal_iff_witness :
    Game.new 2 2 3 = .error .IllegalGame ∧
    Game.new 3 3 3 = .ok ⟨3, Grid.with_dimensions 3 3, [], none⟩ :=
  ⟨(new_illegal_iff 2 2 3).1.mpr (by decide),
   ((new_illegal_iff 3 3 3).2 (by decide)).1⟩

/-- C3: `Grid::insert_piece` fails with IllegalColumn on any out-of-range
column whatever the board holds; fails with IllegalRow when the in-range
target column has reached `max_height`; and otherwise appends the player's
piece on top of the column and returns the landing coordinate
`(column, previous stack height)` (the landing row is exact as long as the
previous height fits in a u32). -/
theorem insert_piece_spec (g : Grid) (p : Player) (c : Nat) :
    (g.values.length ≤ c → g.insert_piece p c = .error .IllegalColumn) ∧
    (∀ col, g.values.get? c = some col →
      (g.max_height ≤ col.length → g.insert_piece p c = .error .IllegalRow) ∧
      (col.length < g.max_height → col.length < U32 →
        g.insert_piece p c =
          .ok (⟨g.values.set c (col ++ [p]), g.max_height⟩, ⟨c, col.length⟩))) := by
  unfold Grid.insert_piece
  refine ⟨fun hlen => ?_, fun col hcol => ⟨fun hfull => ?_, fun hroom hu => ?_⟩⟩
  · rw [List.get?_eq_none.mpr hlen]
  · rw [hcol]
    simp [hfull]
  · rw [hcol]
    simp only [Nat.not_le.mpr hroom, if_false]
    rw [Nat.mod_eq_of_lt hu]

/-- Witness for the drop claim at concrete inputs: an out-of-range drop
and a successful drop on a fresh 2 by 2 board. -/
theorem insert_piece_spec_witness :
    (Grid.with_dimensions 2 2).insert_piece 1 5 = .error .IllegalColumn ∧
    (Grid.with_dimensions 2 2).insert_piece 1 0 =
      .ok (⟨[[1], []], 2⟩, ⟨0, 0⟩) :=
  ⟨(insert_piece_spec (Grid.with_dimensions 2 2) 1 5).1 (by decide),
   ((insert_piece_spec (Grid.with_dimensions 2 2) 1 0).2 [] rfl).2
      (by decide) (by decide)⟩

/-- C4 counterexample: on the 2 by 2 board with run length 2 (exactly the
game built by `Game::new 2 2 2`), replaying [0, 0, 1, 1] does not return
Draw: player 1 owns the bottom cell of both columns after the third move,
a horizontal run of length 2, and one move still follows. -/
theorem draw_scenario_counterexample :
    Game.new 2 2 2 = .ok ⟨2, Grid.with_dimensions 2 2, [], none⟩ ∧
    Game.play ⟨2, Grid.with_dimensions 2 2, [], none⟩ [0, 0, 1, 1] ≠ Outcome.Draw :=
  ⟨rfl, by decide⟩

/-- C4 amended: on the 2 by 2 board with run length 2, replaying
[0, 0, 1, 1] returns IllegalContinue (the win on the third move is
followed by one more listed move). -/
theorem draw_scenario_actual :
    Game.new 2 2 2 = .ok ⟨2, Grid.with_dimensions 2 2, [], none⟩ ∧
    Game.play ⟨2, Grid.with_dimensions 2 2, [], none⟩ [0, 0, 1, 1] =
      Outcome.IllegalContinue :=
  ⟨rfl, by decide⟩

/-- C10: a failed drop (either IllegalColumn or IllegalRow) leaves the
whole match state exactly as it was: `make_move` returns the original
game unchanged, so the grid, every move counter and the recorded last
move are untouched. -/
theorem failed_move_no_change (g : Game) (p : Player) (c : Nat) (o : Outcome)
    (h : g.grid.insert_piece p c = .error o) :
    g.make_move p c = (g, some o) := by
  unfold Game.make_move
  rw [h]

/-- Witness for the failed-drop claim: dropping into column 5 of a fresh
2 by 2 board fails with IllegalColumn and changes nothing. -/
theorem failed_move_no_change_witness :
    Game.make_move ⟨2, Grid.with_dimensions 2 2, [], none⟩ 1 5 =
      (⟨2, Grid.with_dimensions 2 2, [], none⟩, some .IllegalColumn) :=
  failed_move_no_change ⟨2, Grid.with_dimensions 2 2, [], none⟩ 1 5 .IllegalColumn rfl

/-! ### Direction symmetry of the streak count -/

/-- Negating a direction twice is the identity. -/
theorem Direction.neg_neg (d : Direction) : d.neg.neg = d := by
  cases d
  simp [Direction.neg]

/-- Stepping backwards along `d` is stepping forwards along `d.neg`:
the edge guards and the wrapped coordinate arithmetic agree. -/
theorem locSub_eq_locAdd_neg (l : Location) (d : Direction) :
    locSub l d = locAdd l d.neg := by
  simp [locSub, locAdd, Direction.neg, sub_eq_add_neg]

/-- The fuelled walk only looks at the composite stepping function, so two
step/direction pairs that agree pointwise walk identically. -/
theorem walkDir_congr (g : Grid) (p : Player)
    {s1 s2 : Location → Direction → Option Location} {d1 d2 : Direction}
    (h : ∀ l, s1 l d1 = s2 l d2) :
    ∀ fuel pos, walkDir g p s1 d1 fuel pos = walkDir g p s2 d2 fuel pos
  | 0, _ => rfl
  | fuel + 1, pos => by
    unfold walkDir
    rw [h pos]
    cases s2 pos d2 with
    | none => rfl
    | some pos2 =>
      dsimp only
      cases g.atLoc pos2 with
      | none => rfl
      | some q =>
        dsimp only
        by_cases hq : q = p
        · simp [hq, walkDir_congr g p h fuel pos2]
        · simp [hq]

/-- C6: the directional run count is symmetric under negating the
direction: the forward walk of one direction is the backward walk of its
negation and vice versa, cell for cell. -/
theorem get_streak_neg (g : Grid) (s : Location) (d : Direction) :
    g.get_streak s d = g.get_streak s d.neg := by
  unfold Grid.get_streak
  cases g.atLoc s with
  | none => rfl
  | some p =>
    dsimp only
    have h1 : ∀ l, locAdd l d = locSub l d.neg := fun l => by
      rw [locSub_eq_locAdd_neg l d.neg, Direction.neg_neg]
    have h2 : ∀ l, locSub l d = locAdd l d.neg := fun l =>
      locSub_eq_locAdd_neg l d
    rw [walkDir_congr g p h1 (g.pieces + 1) s, walkDir_congr g p h2 (g.pieces + 1) s]
    omega

/-! ### Replay positions: running a prefix of the move list -/

/-- An option returned by `get?` is `some` exactly for in-range indices. -/
theorem get?_isSome_iff {α : Type} (l : List α) (n : Nat) :
    (l.get? n).isSome ↔ n < l.length := by
  rw [Option.isSome_iff_ne_none, ne_eq, List.get?_eq_none, Nat.not_le]

/-- If running a prefix of the move list reaches a live state, replaying
the whole list is replaying the rest of the list from that state. -/
theorem playAux_runMoves : ∀ (i : Nat) (moves : List Nat) (g gi : Game) (p q : Nat),
    runMoves g p (moves.take i) = some (gi, q) →
    playAux g p moves = playAux gi q (moves.drop i)
  | 0, moves, g, gi, p, q, h => by
    simp only [List.take_zero, runMoves, Option.some_inj, Prod.mk.injEq] at h
    obtain ⟨rfl, rfl⟩ := h
    rw [List.drop_zero]
  | i + 1, [], g, gi, p, q, h => by
    simp only [List.take_nil, runMoves, Option.some_inj, Prod.mk.injEq] at h
    obtain ⟨rfl, rfl⟩ := h
    rfl
  | i + 1, c :: rest, g, gi, p, q, h => by
    simp only [List.take_succ_cons, runMoves] at h
    rcases hm : g.make_move p c with ⟨g2, o⟩
    rw [hm] at h
    cases o with
    | some o1 => exact absurd h (by simp)
    | none =>
      dsimp only at h
      have ih := playAux_runMoves i rest g2 gi (nextPlayer p) q h
      simp only [playAux, hm, List.drop_succ_cons]
      exact ih

/-- The error of a failed `insert_piece` is IllegalColumn or IllegalRow. -/
theorem insert_piece_error_cases (g : Grid) (p : Player) (c : Nat) (o : Outcome)
    (h : g.insert_piece p c = .error o) :
    o = .IllegalColumn ∨ o = .IllegalRow := by
  unfold Grid.insert_piece at h
  cases hcol : g.values.get? c with
  | none =>
    rw [hcol] at h
    cases h
    exact Or.inl rfl
  | some col =>
    rw [hcol] at h
    dsimp only at h
    by_cases hfull : g.max_height ≤ col.length
    · rw [if_pos hfull] at h
      cases h
      exact Or.inr rfl
    · rw [if_neg hfull] at h
      cases h

/-- A `PlayerWin` outcome out of `make_move` always names the mover. -/
theorem make_move_win_player (g : Game) (p : Player) (c : Nat) (q : Player)
    (h : (g.make_move p c).2 = some (.PlayerWin q)) : q = p := by
  unfold Game.make_move at h
  cases hins : g.grid.insert_piece p c with
  | error o =>
    rw [hins] at h
    dsimp only at h
    rcases insert_piece_error_cases g.grid p c o hins with rfl | rfl <;> cases h
  | ok res =>
    rcases res with ⟨grid2, loc⟩
    rw [hins] at h
    dsimp only at h
    split at h
    · cases h
      rfl
    · split at h <;> cases h

/-! ### C1: a detected win ends the match, or flags IllegalContinue -/

/-- C1: if the replay reaches move index i in a live state and that move
comes back as a win, then the winner is the mover, and the whole replay
returns Win of the mover when that move is the last of the list, and
IllegalContinue when at least one more move follows. -/
theorem play_win_at_index (moves : List Nat) (i : Nat) (hi : i < moves.length)
    (g gi : Game) (pturn q : Nat)
    (hpre : runMoves g 1 (moves.take i) = some (gi, pturn))
    (hwin : (gi.make_move pturn (moves.get ⟨i, hi⟩)).2 = some (.PlayerWin q)) :
    q = pturn ∧
    (i + 1 = moves.length → g.play moves = .PlayerWin q) ∧
    (i + 1 < moves.length → g.play moves = .IllegalContinue) := by
  refine ⟨make_move_win_player _ _ _ _ hwin, ?_⟩
  have hplay : g.play moves = playAux gi pturn (moves.drop i) :=
    playAux_runMoves i moves g gi 1 pturn hpre
  rw [List.drop_eq_get_cons hi] at hplay
  rcases hm : gi.make_move pturn (moves.get ⟨i, hi⟩) with ⟨g2, o⟩
  rw [hm] at hwin
  dsimp only at hwin
  subst hwin
  simp only [playAux, hm] at hplay
  constructor <;> intro hlen
  · rw [hplay, if_pos]
    rw [List.isEmpty_iff, List.drop_eq_nil_iff]
    omega
  · rw [hplay, if_neg]
    rw [List.isEmpty_iff, List.drop_eq_nil_iff]
    omega

/-- Witness for C1 at a concrete replay: on the 3 by 3 board with run
length 3, the fifth move of [0, 1, 0, 1, 0] completes player 1's vertical
run and is the last move, so the replay returns Win of player 1. -/
theorem play_win_at_index_witness :
    Game.play ⟨3, Grid.with_dimensions 3 3, [], none⟩ [0, 1, 0, 1, 0] =
      Outcome.PlayerWin 1 :=
  (play_win_at_index [0, 1, 0, 1, 0] 4 (by decide)
      ⟨3, Grid.with_dimensions 3 3, [], none⟩
      ⟨3, ⟨[[1, 1], [2, 2], []], 3⟩, [(1, 2), (2, 2)], some ⟨1, 1⟩⟩ 1 1
      (by decide) (by decide)).2.1 (by decide)

/-! ### C5: a full board with no win is an immediate Draw -/

/-- C5: if the replay reaches move index i in a live state, the drop
succeeds, the mover's win check fails, and the new grid is full, the whole
replay returns Draw no matter how many moves remain in the list. -/
theorem full_board_draw (moves : List Nat) (i : Nat) (hi : i < moves.length)
    (g gi : Game) (pturn : Nat) (grid2 : Grid) (loc : Location)
    (hpre : runMoves g 1 (moves.take i) = some (gi, pturn))
    (hins : gi.grid.insert_piece pturn (moves.get ⟨i, hi⟩) = .ok (grid2, loc))
    (hnowin : ((gi.apply_move pturn grid2 loc).could_win pturn &&
        (gi.apply_move pturn grid2 loc).streak_check loc) = false)
    (hfull : grid2.is_full = true) :
    g.play moves = .Draw := by
  have hplay : g.play moves = playAux gi pturn (moves.drop i) :=
    playAux_runMoves i moves g gi 1 pturn hpre
  rw [List.drop_eq_get_cons hi] at hplay
  have hm : gi.make_move pturn (moves.get ⟨i, hi⟩) =
      (gi.apply_move pturn grid2 loc, some .Draw) := by
    unfold Game.make_move
    rw [hins]
    dsimp only
    rw [hnowin]
    simp [hfull]
  rw [hplay]
  simp only [playAux, hm]

/-- Witness for C5: on a 2 by 3 board with run length 3, the sixth move of
[0, 0, 0, 1, 1, 1] fills the board with no run of 3, and the replay
returns Draw. -/
theorem full_board_draw_witness :
    Game.play ⟨3, Grid.with_dimensions 2 3, [], none⟩ [0, 0, 0, 1, 1, 1] =
      Outcome.Draw :=
  full_board_draw [0, 0, 0, 1, 1, 1] 5 (by decide)
    ⟨3, Grid.with_dimensions 2 3, [], none⟩
    ⟨3, ⟨[[1, 2, 1], [2, 1]], 3⟩, [(1, 3), (2, 2)], some ⟨1, 1⟩⟩ 2
    ⟨[[1, 2, 1], [2, 1, 2]], 3⟩ ⟨1, 2⟩
    (by decide) rfl (by decide) (by decide)

/-! ### C8: the win check start is always a validated coordinate -/

/-- C8: after a successful drop, the state handed to the win check has
`last_move` set to the landing coordinate (so the `expect` read of the
source cannot fail), and that coordinate is an in-bounds occupied cell of
the new grid, owned by the mover.  The height bound reflects the u32
height of every constructible game. -/
theorem win_check_safety (g : Game) (p : Player) (c : Nat) (grid2 : Grid)
    (loc : Location) (hh : g.grid.max_height < U32)
    (hins : g.grid.insert_piece p c = .ok (grid2, loc)) :
    (g.apply_move p grid2 loc).last_move = some loc ∧
    loc.col < grid2.values.length ∧
    grid2.atLoc loc = some p := by
  refine ⟨rfl, ?_⟩
  unfold Grid.insert_piece at hins
  cases hcol : g.grid.values.get? c with
  | none => rw [hcol] at hins; cases hins
  | some col =>
    rw [hcol] at hins
    dsimp only at hins
    by_cases hfull : g.grid.max_height ≤ col.length
    · rw [if_pos hfull] at hins; cases hins
    · rw [if_neg hfull] at hins
      obtain ⟨rfl, rfl⟩ : grid2 = ⟨g.grid.values.set c (col ++ [p]), g.grid.max_height⟩ ∧
          loc = ⟨c, col.length % U32⟩ := by
        cases hins; exact ⟨rfl, rfl⟩
      have hc : c < g.grid.values.length := by
        rw [← get?_isSome_iff, hcol]; rfl
      have hrow : col.length % U32 = col.length :=
        Nat.mod_eq_of_lt (lt_trans (Nat.not_le.mp hfull) hh)
      constructor
      · simpa using hc
      · show Grid.atLoc _ _ = some p
        unfold Grid.atLoc
        dsimp only
        rw [List.get?_set_eq_of_lt _ hc]
        dsimp only
        rw [hrow, List.get?_concat_length]

/-- Witness for C8: the first drop on a fresh 2 by 2 board. -/
theorem win_check_safety_witness :
    (Game.apply_move ⟨2, Grid.with_dimensions 2 2, [], none⟩ 1 ⟨[[1], []], 2⟩
        ⟨0, 0⟩).last_move = some ⟨0, 0⟩ ∧
    (0 : Nat) < ([[1], []] : List (List Player)).length ∧
    Grid.atLoc ⟨[[1], []], 2⟩ ⟨0, 0⟩ = some 1 :=
  win_check_safety ⟨2, Grid.with_dimensions 2 2, [], none⟩ 1 0 ⟨[[1], []], 2⟩
    ⟨0, 0⟩ (by decide) rfl

/-! ### C9: the bottom-up column invariant -/

/-- Grid states reachable from `with_dimensions` by `insert_piece`. -/
inductive Reachable : Grid → Prop where
  | init (width height : Nat) : Reachable (Grid.with_dimensions width height)
  | step (g g2 : Grid) (p : Player) (c : Nat) (loc : Location) :
      Reachable g → g.insert_piece p c = .ok (g2, loc) → Reachable g2

/-- A cell of a column is occupied exactly below the column's stack
height: this is forced by the representation, for every grid. -/
theorem atLoc_isSome_iff (g : Grid) (i j : Nat) (col : List Player)
    (hcol : g.values.get? i = some col) :
    (g.atLoc ⟨i, j⟩).isSome ↔ j < col.length := by
  unfold Grid.atLoc
  dsimp only
  rw [hcol]
  exact get?_isSome_iff col j

/-- C9: every grid reachable from `with_dimensions` by `insert_piece`
keeps each column a contiguous bottom-up stack: a cell is occupied exactly
below the stack height, the number of occupied rows of the column equals
the stack height, and the stack height never exceeds the board height. -/
theorem reachable_invariant (g : Grid) (hg : Reachable g) :
    ∀ i col, g.values.get? i = some col →
      col.length ≤ g.max_height ∧
      (∀ j, (g.atLoc ⟨i, j⟩).isSome ↔ j < col.length) ∧
      ((Finset.range g.max_height).filter
          (fun j => (g.atLoc ⟨i, j⟩).isSome)).card = col.length := by
  have key : ∀ g2, Reachable g2 → ∀ i col, g2.values.get? i = some col →
      col.length ≤ g2.max_height := by
    intro g2 hg2
    induction hg2 with
    | init w h =>
      intro i col hcol
      have : col = [] := List.eq_of_mem_replicate (List.get?_mem hcol)
      simp [this]
    | step ga gb p c loc hra hins ih =>
      intro i col hcol
      unfold Grid.insert_piece at hins
      cases hcola : ga.values.get? c with
      | none => rw [hcola] at hins; cases hins
      | some cola =>
        rw [hcola] at hins
        dsimp only at hins
        by_cases hfull : ga.max_height ≤ cola.length
        · rw [if_pos hfull] at hins; cases hins
        · rw [if_neg hfull] at hins
          obtain ⟨rfl, -⟩ : gb = ⟨ga.values.set c (cola ++ [p]), ga.max_height⟩ ∧
              loc = ⟨c, cola.length % U32⟩ := by cases hins; exact ⟨rfl, rfl⟩
          by_cases hic : c = i
          · subst hic
            have hc : c < ga.values.length := by
              rw [← get?_isSome_iff, hcola]; rfl
            rw [show Grid.values ⟨ga.values.set c (cola ++ [p]), ga.max_height⟩ =
                  ga.values.set c (cola ++ [p]) from rfl,
                List.get?_set_eq_of_lt _ hc] at hcol
            cases hcol
            simp only [List.length_append, List.length_singleton]
            omega
          · rw [show Grid.values ⟨ga.values.set c (cola ++ [p]), ga.max_height⟩ =
                  ga.values.set c (cola ++ [p]) from rfl,
                List.get?_set_ne _ _ hic] at hcol
            exact ih i col hcol
  intro i col hcol
  have hle := key g hg i col hcol
  have hiff : ∀ j, (g.atLoc ⟨i, j⟩).isSome ↔ j < col.length :=
    fun j => atLoc_isSome_iff g i j col hcol
  refine ⟨hle, fun j => hiff j, ?_⟩
  have : (Finset.range g.max_height).filter (fun j => (g.atLoc ⟨i, j⟩).isSome) =
      Finset.range col.length := by
    ext j
    simp only [Finset.mem_filter, Finset.mem_range, hiff j]
    omega
  rw [this, Finset.card_range]

/-- Witness for C9 at the fresh 2 by 2 grid. -/
theorem reachable_invariant_witness :
    ([] : List Player).length ≤ (Grid.with_dimensions 2 2).max_height ∧
    (((Grid.with_dimensions 2 2).atLoc ⟨0, 0⟩).isSome ↔
      0 < ([] : List Player).length) ∧
    ((Finset.range (Grid.with_dimensions 2 2).max_height).filter
        (fun j => ((Grid.with_dimensions 2 2).atLoc ⟨0, j⟩).isSome)).card =
      ([] : List Player).length := by
  obtain ⟨h1, h2, h3⟩ :=
    reachable_invariant (Grid.with_dimensions 2 2) (Reachable.init 2 2) 0 [] rfl
  exact ⟨h1, h2 0, h3⟩

/-! ### C7: the could_win short-circuit and the u32 move counters

The variant engine runs the four-direction scan after every successful
placement, with no per-player move-count guard.  The equivalence rests on
an invariant of every state reachable from `Game::new` on a board whose
cell count fits in a u32: the recorded move count of a player equals the
number of that player's pieces on the board (the u32 counter cannot wrap,
because a player never places more pieces than the board has cells), and
a streak through the landing cell can never count more cells than the
mover owns.  Without the cell bound the wrapping counter can under-read
the mover's pieces and the guard becomes observable. -/

/-- `Game::make_move` with the `could_win` guard removed: the
four-direction scan runs after every successful placement. -/
def Game.make_move_variant (g : Game) (p : Player) (column : Nat) : Game × Option Outcome :=
  match g.grid.insert_piece p column with
  | .error o => (g, some o)
  | .ok (grid2, loc) =>
    let g2 := g.apply_move p grid2 loc
    if g2.streak_check loc then (g2, some (.PlayerWin p))
    else if grid2.is_full then (g2, some .Draw)
    else (g2, none)

/-- The replay loop built on the variant `make_move_variant`. -/
def playAuxVariant : Game → Nat → List Nat → Outcome
  | _, _, [] => .Incomplete
  | g, player, column :: rest =>
    match g.make_move_variant player column with
    | (_, some (.PlayerWin q)) => if rest.isEmpty then .PlayerWin q else .IllegalContinue
    | (_, some o) => o
    | (g2, none) => playAuxVariant g2 (nextPlayer player) rest

/-- The replay built on the variant engine. -/
def Game.play_variant (g : Game) (moves : List Nat) : Outcome :=
  playAuxVariant g 1 moves

/-- The cells of the board owned by player p. -/
def Grid.pieceFinset (g : Grid) (p : Player) : Finset (Nat × Nat) :=
  (Finset.range g.values.length ×ˢ Finset.range g.max_height).filter
    (fun ij => g.atLoc ⟨ij.1, ij.2⟩ = some p)

/-- The recorded move count of a player (0 when absent from the map). -/
def countOf (m : List (Player × Nat)) (p : Player) : Nat :=
  (lookupCount m p).getD 0

/-- The state invariant of every game reachable from `Game::new` whose
cell count fits in a u32: dimensions and cell count fit in a u32, columns
never exceed the board height, and the recorded move count of every
player equals the number of that player's pieces on the board (a player's
piece count is bounded by the cell count, so the u32 counter never
wraps under `cells_lt`). -/
structure Inv (g : Game) : Prop where
  width_lt : g.grid.values.length < U32
  height_lt : g.grid.max_height < U32
  cells_lt : g.grid.values.length * g.grid.max_height < U32
  wf : ∀ i col, g.grid.values.get? i = some col → col.length ≤ g.grid.max_height
  counts : ∀ p, (g.grid.pieceFinset p).card = countOf g.moves_made p

/-- Characterisation of a successful `insert_piece`. -/
theorem insert_piece_ok (g : Grid) (p : Player) (c : Nat) (grid2 : Grid)
    (loc : Location) (h : g.insert_piece p c = .ok (grid2, loc)) :
    ∃ col, g.values.get? c = some col ∧ col.length < g.max_height ∧
      grid2 = ⟨g.values.set c (col ++ [p]), g.max_height⟩ ∧
      loc = ⟨c, col.length % U32⟩ := by
  unfold Grid.insert_piece at h
  cases hcol : g.values.get? c with
  | none => rw [hcol] at h; cases h
  | some col =>
    rw [hcol] at h
    dsimp only at h
    by_cases hfull : g.max_height ≤ col.length
    · rw [if_pos hfull] at h; cases h
    · rw [if_neg hfull] at h
      refine ⟨col, rfl, Nat.not_le.mp hfull, ?_⟩
      cases h
      exact ⟨rfl, rfl⟩

/-- An occupied cell is inside the board rectangle (given the column
height invariant). -/
theorem atLoc_bounds (g : Grid) (pos : Location) (p : Player)
    (hwf : ∀ i col, g.values.get? i = some col → col.length ≤ g.max_height)
    (h : g.atLoc pos = some p) :
    pos.col < g.values.length ∧ pos.row < g.max_height := by
  unfold Grid.atLoc at h
  cases hcol : g.values.get? pos.col with
  | none => rw [hcol] at h; cases h
  | some col =>
    rw [hcol] at h
    dsimp only at h
    have h1 : pos.col < g.values.length := by
      rw [← get?_isSome_iff, hcol]; rfl
    have h2 : pos.row < col.length := by
      rw [← get?_isSome_iff, h]; rfl
    exact ⟨h1, lt_of_lt_of_le h2 (hwf _ _ hcol)⟩

/-- Cell lookup after a push: only the landing cell changes, from empty
to the mover's piece. -/
theorem atLoc_after_insert (g : Grid) (p : Player) (c : Nat) (col : List Player)
    (hcol : g.values.get? c = some col) (i j : Nat) :
    Grid.atLoc ⟨g.values.set c (col ++ [p]), g.max_height⟩ ⟨i, j⟩ =
      if i = c ∧ j = col.length then some p else g.atLoc ⟨i, j⟩ := by
  have hc : c < g.values.length := by
    rw [← get?_isSome_iff, hcol]; rfl
  unfold Grid.atLoc
  dsimp only
  by_cases hic : i = c
  · subst hic
    rw [List.get?_set_eq_of_lt _ hc, hcol]
    dsimp only
    rcases Nat.lt_trichotomy j col.length with hj | hj | hj
    · rw [if_neg (by omega), List.get?_append hj]
    · subst hj
      rw [if_pos ⟨rfl, rfl⟩, List.get?_concat_length]
    · rw [if_neg (by omega), List.get?_eq_none.mpr (by simp; omega),
        List.get?_eq_none.mpr (by omega)]
  · rw [List.get?_set_ne _ _ (fun hx => hic hx.symm), if_neg (by tauto)]

/-- Membership in the piece set is exactly cell ownership (given the
column height invariant). -/
theorem mem_pieceFinset (g : Grid) (q : Player) (ij : Nat × Nat)
    (hwf : ∀ i col, g.values.get? i = some col → col.length ≤ g.max_height) :
    ij ∈ g.pieceFinset q ↔ g.atLoc ⟨ij.1, ij.2⟩ = some q := by
  unfold Grid.pieceFinset
  rw [Finset.mem_filter, Finset.mem_product, Finset.mem_range, Finset.mem_range]
  constructor
  · exact fun h => h.2
  · intro h
    exact ⟨atLoc_bounds g ⟨ij.1, ij.2⟩ q hwf h, h⟩

/-- A player's piece set lies inside the board rectangle, so its size is
at most the board's cell count. -/
theorem pieceFinset_card_le (g : Grid) (p : Player) :
    (g.pieceFinset p).card ≤ g.values.length * g.max_height := by
  unfold Grid.pieceFinset
  calc ((Finset.range g.values.length ×ˢ Finset.range g.max_height).filter
        (fun ij => g.atLoc ⟨ij.1, ij.2⟩ = some p)).card
      ≤ (Finset.range g.values.length ×ˢ Finset.range g.max_height).card :=
        Finset.card_filter_le _ _
    _ = g.values.length * g.max_height := by
        rw [Finset.card_product, Finset.card_range, Finset.card_range]

/-- Lookup after a bump: the bumped player gains one (wrapping at the u32
modulus, as the source's `*value += 1` does), everyone else is
unchanged. -/
theorem lookupCount_bumpCount (m : List (Player × Nat)) (p q : Player) :
    lookupCount (bumpCount m p) q =
      if q = p then some (((lookupCount m p).getD 0 + 1) % U32)
      else lookupCount m q := by
  induction m with
  | nil =>
    by_cases hqp : q = p
    · subst hqp
      simp only [bumpCount, lookupCount, if_pos rfl, Option.getD_none]
      norm_num [U32]
    · simp only [bumpCount, lookupCount]
      rw [if_neg (fun h => hqp h.symm), if_neg hqp]
  | cons e rest ih =>
    rcases e with ⟨r, v⟩
    simp only [bumpCount]
    by_cases hrp : r = p
    · subst hrp
      rw [if_pos rfl]
      by_cases hqr : q = r
      · subst hqr
        simp [lookupCount]
      · simp [lookupCount, hqr, Ne.symm hqr]
    · rw [if_neg hrp]
      by_cases hrq : r = q
      · subst hrq
        simp [lookupCount, hrp]
      · simp [lookupCount, hrq, hrp, ih]

/-- The landing cell of a successful drop holds the mover's piece, and
was empty beforehand (u32 height keeps the landing row exact). -/
theorem insert_piece_atLoc (g : Grid) (p : Player) (c : Nat) (grid2 : Grid)
    (loc : Location) (hh : g.max_height < U32)
    (hins : g.insert_piece p c = .ok (grid2, loc)) :
    grid2.atLoc loc = some p ∧ g.atLoc loc = none := by
  obtain ⟨col, hcol, hlen, rfl, rfl⟩ := insert_piece_ok g p c grid2 loc hins
  have hrow : col.length % U32 = col.length := Nat.mod_eq_of_lt (lt_trans hlen hh)
  constructor
  · rw [show (⟨c, col.length % U32⟩ : Location) = ⟨c, col.length⟩ from by rw [hrow],
      atLoc_after_insert g p c col hcol, if_pos ⟨rfl, rfl⟩]
  · show g.atLoc ⟨c, col.length % U32⟩ = none
    unfold Grid.atLoc
    dsimp only
    rw [hcol]
    dsimp only
    rw [hrow]
    exact List.get?_eq_none.mpr le_rfl

/-- The state invariant survives the update of a successful drop. -/
theorem apply_move_inv (g : Game) (p : Player) (c : Nat) (grid2 : Grid)
    (loc : Location) (hInv : Inv g)
    (hins : g.grid.insert_piece p c = .ok (grid2, loc)) :
    Inv (g.apply_move p grid2 loc) := by
  obtain ⟨col, hcol, hlen, rfl, rfl⟩ := insert_piece_ok g.grid p c grid2 loc hins
  have hc : c < g.grid.values.length := by
    rw [← get?_isSome_iff, hcol]; rfl
  have hempty : g.grid.atLoc ⟨c, col.length⟩ = none := by
    unfold Grid.atLoc
    dsimp only
    rw [hcol]
    dsimp only
    exact List.get?_eq_none.mpr le_rfl
  have hat2 : ∀ i j,
      Grid.atLoc ⟨g.grid.values.set c (col ++ [p]), g.grid.max_height⟩ ⟨i, j⟩ =
        if i = c ∧ j = col.length then some p else g.grid.atLoc ⟨i, j⟩ :=
    atLoc_after_insert g.grid p c col hcol
  have hwf2 : ∀ i col2,
      (Grid.values ⟨g.grid.values.set c (col ++ [p]), g.grid.max_height⟩).get? i =
        some col2 →
      col2.length ≤ Grid.max_height ⟨g.grid.values.set c (col ++ [p]), g.grid.max_height⟩ := by
    intro i col2 hcol2
    show col2.length ≤ g.grid.max_height
    by_cases hic : i = c
    · subst hic
      rw [show Grid.values ⟨g.grid.values.set i (col ++ [p]), g.grid.max_height⟩ =
            g.grid.values.set i (col ++ [p]) from rfl,
          List.get?_set_eq_of_lt _ hc] at hcol2
      cases hcol2
      simp only [List.length_append, List.length_singleton]
      omega
    · rw [show Grid.values ⟨g.grid.values.set c (col ++ [p]), g.grid.max_height⟩ =
            g.grid.values.set c (col ++ [p]) from rfl,
          List.get?_set_ne _ _ (fun hx => hic hx.symm)] at hcol2
      exact hInv.wf i col2 hcol2
  have hnotmem : (c, col.length) ∉ g.grid.pieceFinset p := by
    rw [mem_pieceFinset g.grid p (c, col.length) hInv.wf]
    show ¬g.grid.atLoc ⟨c, col.length⟩ = some p
    rw [hempty]
    simp
  refine ⟨?_, hInv.height_lt, ?_, hwf2, ?_⟩
  · show (g.grid.values.set c (col ++ [p])).length < U32
    rw [List.length_set]
    exact hInv.width_lt
  · show (g.grid.values.set c (col ++ [p])).length * g.grid.max_height < U32
    rw [List.length_set]
    exact hInv.cells_lt
  · intro q
    show (Grid.pieceFinset ⟨g.grid.values.set c (col ++ [p]), g.grid.max_height⟩ q).card =
      countOf (bumpCount g.moves_made p) q
    by_cases hqp : q = p
    · rw [hqp]
      have hset : Grid.pieceFinset ⟨g.grid.values.set c (col ++ [p]), g.grid.max_height⟩ p =
          insert (c, col.length) (g.grid.pieceFinset p) := by
        ext ij
        rw [mem_pieceFinset _ _ _ hwf2, Finset.mem_insert,
          mem_pieceFinset _ _ _ hInv.wf, hat2 ij.1 ij.2]
        by_cases hij : ij.1 = c ∧ ij.2 = col.length
        · rw [if_pos hij]
          constructor
          · intro _
            left
            exact Prod.ext hij.1 hij.2
          · intro _
            rfl
        · rw [if_neg hij]
          constructor
          · intro hx
            right
            exact hx
          · rintro (hx | hx)
            · subst hx
              exact absurd ⟨rfl, rfl⟩ hij
            · exact hx
      have hle : (g.grid.pieceFinset p).card + 1 ≤
          g.grid.values.length * g.grid.max_height := by
        have h1 := pieceFinset_card_le
          ⟨g.grid.values.set c (col ++ [p]), g.grid.max_height⟩ p
        rw [hset, Finset.card_insert_of_not_mem hnotmem] at h1
        dsimp only at h1
        rw [List.length_set] at h1
        exact h1
      rw [hset, Finset.card_insert_of_not_mem hnotmem]
      unfold countOf
      rw [lookupCount_bumpCount, if_pos rfl]
      dsimp only [Option.getD_some]
      rw [show (lookupCount g.moves_made p).getD 0 = countOf g.moves_made p from rfl,
        ← hInv.counts p, Nat.mod_eq_of_lt (lt_of_le_of_lt hle hInv.cells_lt)]
    · have hset : Grid.pieceFinset ⟨g.grid.values.set c (col ++ [p]), g.grid.max_height⟩ q =
          g.grid.pieceFinset q := by
        ext ij
        rw [mem_pieceFinset _ _ _ hwf2, mem_pieceFinset _ _ _ hInv.wf, hat2 ij.1 ij.2]
        by_cases hij : ij.1 = c ∧ ij.2 = col.length
        · rw [if_pos hij]
          constructor
          · intro hx
            exact absurd (Option.some.inj hx) (fun h => hqp h.symm)
          · intro hx
            exfalso
            obtain ⟨h1, h2⟩ := hij
            rw [show (⟨ij.1, ij.2⟩ : Location) = ⟨c, col.length⟩ from by rw [h1, h2],
              hempty] at hx
            cases hx
        · rw [if_neg hij]
      rw [hset, hInv.counts q]
      unfold countOf
      rw [lookupCount_bumpCount, if_neg hqp]

/-- The first component of `make_move` always satisfies the invariant
when the input state does. -/
theorem make_move_inv (g : Game) (p : Player) (c : Nat) (hInv : Inv g) :
    Inv (g.make_move p c).1 := by
  unfold Game.make_move
  cases hins : g.grid.insert_piece p c with
  | error o => exact hInv
  | ok res =>
    rcases res with ⟨grid2, loc⟩
    dsimp only
    have h2 := apply_move_inv g p c grid2 loc hInv hins
    split
    · exact h2
    · split
      · exact h2
      · exact h2

/-- For a unit direction and a position away from the u32 boundary (true
of every occupied cell of a u32-sized board), a successful `locAdd` step
is exact coordinate arithmetic: no wrap occurs. -/
theorem locAdd_step (pos : Location) (d : Direction) (pos2 : Location)
    (hd1 : -1 ≤ d.dc) (hd2 : d.dc ≤ 1) (hd3 : -1 ≤ d.dr) (hd4 : d.dr ≤ 1)
    (hc : pos.col + 1 < U32) (hr : pos.row + 1 < U32)
    (h : locAdd pos d = some pos2) :
    (pos2.col : Int) = pos.col + d.dc ∧ (pos2.row : Int) = pos.row + d.dr := by
  unfold locAdd at h
  rw [show U32 = 4294967296 from rfl] at hc hr
  by_cases h1 : pos.col = 0 ∧ d.dc < 0
  · rw [if_pos h1] at h; cases h
  · rw [if_neg h1] at h
    by_cases h2 : pos.row = 0 ∧ d.dr < 0
    · rw [if_pos h2] at h; cases h
    · rw [if_neg h2] at h
      have hU : ((U32 : Nat) : Int) = 4294967296 := by norm_num [U32]
      cases h
      constructor
      · show ((((pos.col : Int) + d.dc) % ((U32 : Nat) : Int)).toNat : Int) =
          (pos.col : Int) + d.dc
        rw [hU]
        omega
      · show ((((pos.row : Int) + d.dr) % ((U32 : Nat) : Int)).toNat : Int) =
          (pos.row : Int) + d.dr
        rw [hU]
        omega

/-- Each of the first `walkDir`-with-`locAdd` steps lands on a cell owned
by the walking player, at exact offset k times the direction from the
start (given a u32-sized board, the height invariant, a unit direction
and an occupied start). -/
theorem walkDir_locAdd_cells (g : Grid) (p : Player) (d : Direction)
    (hw : g.values.length < U32) (hh : g.max_height < U32)
    (hwf : ∀ i col, g.values.get? i = some col → col.length ≤ g.max_height)
    (hd1 : -1 ≤ d.dc) (hd2 : d.dc ≤ 1) (hd3 : -1 ≤ d.dr) (hd4 : d.dr ≤ 1) :
    ∀ (fuel : Nat) (pos : Location), g.atLoc pos = some p →
      ∀ k : Nat, 1 ≤ k → k ≤ walkDir g p locAdd d fuel pos →
        ∃ pos2 : Location, g.atLoc pos2 = some p ∧
          (pos2.col : Int) = pos.col + k * d.dc ∧
          (pos2.row : Int) = pos.row + k * d.dr
  | 0, pos, hpos, k, hk1, hk2 =>
    absurd (hk1.trans hk2) (Nat.not_succ_le_zero 0)
  | fuel + 1, pos, hpos, k, hk1, hk2 => by
    have hbounds := atLoc_bounds g pos p hwf hpos
    unfold walkDir at hk2
    cases hstep : locAdd pos d with
    | none =>
      rw [hstep] at hk2
      dsimp only at hk2
      omega
    | some pos1 =>
      rw [hstep] at hk2
      dsimp only at hk2
      cases hat1 : g.atLoc pos1 with
      | none =>
        rw [hat1] at hk2
        dsimp only at hk2
        omega
      | some q =>
        rw [hat1] at hk2
        dsimp only at hk2
        by_cases hqp : q = p
        · rw [if_pos hqp] at hk2
          rw [hqp] at hat1
          have hstep2 := locAdd_step pos d pos1 hd1 hd2 hd3 hd4
            (by omega) (by omega) hstep
          by_cases hk : k = 1
          · subst hk
            refine ⟨pos1, hat1, ?_, ?_⟩
            · rw [hstep2.1]; push_cast; ring
            · rw [hstep2.2]; push_cast; ring
          · have hk2a : k - 1 ≤ walkDir g p locAdd d fuel pos1 := by omega
            obtain ⟨pos2, hp2, hc2, hr2⟩ :=
              walkDir_locAdd_cells g p d hw hh hwf hd1 hd2 hd3 hd4 fuel pos1
                hat1 (k - 1) (by omega) hk2a
            have hcast : ((k - 1 : Nat) : Int) = (k : Int) - 1 := by omega
            refine ⟨pos2, hp2, ?_, ?_⟩
            · rw [hc2, hstep2.1, hcast]; ring
            · rw [hr2, hstep2.2, hcast]; ring
        · rw [if_neg hqp] at hk2
          omega

/-- The backward-walk counterpart of `walkDir_locAdd_cells`: each counted
cell sits at exact negative offset from the start. -/
theorem walkDir_locSub_cells (g : Grid) (p : Player) (d : Direction)
    (hw : g.values.length < U32) (hh : g.max_height < U32)
    (hwf : ∀ i col, g.values.get? i = some col → col.length ≤ g.max_height)
    (hd1 : -1 ≤ d.dc) (hd2 : d.dc ≤ 1) (hd3 : -1 ≤ d.dr) (hd4 : d.dr ≤ 1)
    (fuel : Nat) (pos : Location) (hpos : g.atLoc pos = some p)
    (k : Nat) (hk1 : 1 ≤ k) (hk2 : k ≤ walkDir g p locSub d fuel pos) :
    ∃ pos2 : Location, g.atLoc pos2 = some p ∧
      (pos2.col : Int) = pos.col - k * d.dc ∧
      (pos2.row : Int) = pos.row - k * d.dr := by
  rw [walkDir_congr g p (fun l => locSub_eq_locAdd_neg l d) fuel pos] at hk2
  obtain ⟨pos2, h1, h2, h3⟩ :=
    walkDir_locAdd_cells g p d.neg hw hh hwf
      (by show -1 ≤ -d.dc; omega) (by show -d.dc ≤ 1; omega)
      (by show -1 ≤ -d.dr; omega) (by show -d.dr ≤ 1; omega)
      fuel pos hpos k hk1 hk2
  refine ⟨pos2, h1, ?_, ?_⟩
  · rw [h2]; show (pos.col : Int) + k * (-d.dc) = pos.col - k * d.dc; ring
  · rw [h3]; show (pos.row : Int) + k * (-d.dr) = pos.row - k * d.dr; ring

/-- A streak through an occupied cell counts distinct cells owned by that
cell's player, so it is at most the player's piece count on the board. -/
theorem get_streak_le_card (g : Grid) (p : Player) (loc : Location) (d : Direction)
    (hw : g.values.length < U32) (hh : g.max_height < U32)
    (hwf : ∀ i col, g.values.get? i = some col → col.length ≤ g.max_height)
    (hd1 : -1 ≤ d.dc) (hd2 : d.dc ≤ 1) (hd3 : -1 ≤ d.dr) (hd4 : d.dr ≤ 1)
    (hdnz : ¬(d.dc = 0 ∧ d.dr = 0))
    (hat : g.atLoc loc = some p) :
    g.get_streak loc d ≤ (g.pieceFinset p).card := by
  unfold Grid.get_streak
  rw [hat]
  dsimp only
  set a := walkDir g p locAdd d (g.pieces + 1) loc with ha
  set b := walkDir g p locSub d (g.pieces + 1) loc with hb
  have hcell : ∀ k : Int, -(b : Int) ≤ k → k ≤ (a : Int) →
      ∃ pos2 : Location, g.atLoc pos2 = some p ∧
        (pos2.col : Int) = loc.col + k * d.dc ∧
        (pos2.row : Int) = loc.row + k * d.dr := by
    intro k hk1 hk2
    rcases lt_trichotomy k 0 with hk | hk | hk
    · obtain ⟨pos2, h1, h2, h3⟩ :=
        walkDir_locSub_cells g p d hw hh hwf hd1 hd2 hd3 hd4
          (g.pieces + 1) loc hat (-k).toNat (by omega) (by omega)
      have hcast : (((-k).toNat : Nat) : Int) = -k := by omega
      refine ⟨pos2, h1, ?_, ?_⟩
      · rw [h2, hcast]; ring
      · rw [h3, hcast]; ring
    · subst hk
      exact ⟨loc, hat, by simp, by simp⟩
    · obtain ⟨pos2, h1, h2, h3⟩ :=
        walkDir_locAdd_cells g p d hw hh hwf hd1 hd2 hd3 hd4
          (g.pieces + 1) loc hat k.toNat (by omega) (by omega)
      have hcast : ((k.toNat : Nat) : Int) = k := by omega
      refine ⟨pos2, h1, ?_, ?_⟩
      · rw [h2, hcast]
      · rw [h3, hcast]
  have hmaps : ∀ k ∈ Finset.Icc (-(b : Int)) (a : Int),
      (((loc.col : Int) + k * d.dc).toNat, ((loc.row : Int) + k * d.dr).toNat) ∈
        g.pieceFinset p := by
    intro k hk
    rw [Finset.mem_Icc] at hk
    obtain ⟨pos2, h1, h2, h3⟩ := hcell k hk.1 hk.2
    rw [mem_pieceFinset _ _ _ hwf]
    show g.atLoc ⟨((loc.col : Int) + k * d.dc).toNat,
      ((loc.row : Int) + k * d.dr).toNat⟩ = some p
    rw [← h2, ← h3, Int.toNat_natCast, Int.toNat_natCast]
    exact h1
  have hinj : Set.InjOn
      (fun k : Int => (((loc.col : Int) + k * d.dc).toNat,
        ((loc.row : Int) + k * d.dr).toNat))
      (Finset.Icc (-(b : Int)) (a : Int)) := by
    intro k1 hk1 k2 hk2 heq
    rw [Finset.coe_Icc, Set.mem_Icc] at hk1 hk2
    obtain ⟨q1, hq1, hc1, hr1⟩ := hcell k1 hk1.1 hk1.2
    obtain ⟨q2, hq2, hc2, hr2⟩ := hcell k2 hk2.1 hk2.2
    have hfst : ((loc.col : Int) + k1 * d.dc).toNat =
        ((loc.col : Int) + k2 * d.dc).toNat := congrArg Prod.fst heq
    have hsnd : ((loc.row : Int) + k1 * d.dr).toNat =
        ((loc.row : Int) + k2 * d.dr).toNat := congrArg Prod.snd heq
    have hcInt : (loc.col : Int) + k1 * d.dc = (loc.col : Int) + k2 * d.dc := by
      omega
    have hrInt : (loc.row : Int) + k1 * d.dr = (loc.row : Int) + k2 * d.dr := by
      omega
    have hcEq : k1 * d.dc = k2 * d.dc := by omega
    have hrEq : k1 * d.dr = k2 * d.dr := by omega
    rcases not_and_or.mp hdnz with hdc | hdr
    · exact mul_right_cancel₀ hdc hcEq
    · exact mul_right_cancel₀ hdr hrEq
  have hcard := Finset.card_le_card_of_injOn _ hmaps hinj
  rw [Int.card_Icc] at hcard
  omega

/-- The four scan directions are unit vectors, none of them zero. -/
theorem all_directions_unit (d : Direction) (hd : d ∈ ALL_DIRECTIONS) :
    (-1 ≤ d.dc ∧ d.dc ≤ 1 ∧ -1 ≤ d.dr ∧ d.dr ≤ 1) ∧ ¬(d.dc = 0 ∧ d.dr = 0) := by
  fin_cases hd <;>
    exact ⟨⟨by decide, by decide, by decide, by decide⟩, by decide⟩

/-- When the mover's move count is still below the run length, the
four-direction scan cannot find a qualifying streak: the count equals the
mover's piece count and every streak is bounded by it. -/
theorem streak_check_false (g : Game) (p : Player) (c : Nat) (grid2 : Grid)
    (loc : Location) (hInv : Inv g)
    (hins : g.grid.insert_piece p c = .ok (grid2, loc))
    (hcw : (g.apply_move p grid2 loc).could_win p = false) :
    (g.apply_move p grid2 loc).streak_check loc = false := by
  have hInv2 := apply_move_inv g p c grid2 loc hInv hins
  have hat : grid2.atLoc loc = some p :=
    (insert_piece_atLoc g.grid p c grid2 loc hInv.height_lt hins).1
  have hcount : countOf (bumpCount g.moves_made p) p < g.win_length := by
    unfold Game.could_win at hcw
    rw [show (g.apply_move p grid2 loc).moves_made = bumpCount g.moves_made p
          from rfl,
        show (g.apply_move p grid2 loc).win_length = g.win_length from rfl,
        lookupCount_bumpCount, if_pos rfl] at hcw
    dsimp only at hcw
    rw [decide_eq_false_iff_not] at hcw
    unfold countOf
    rw [lookupCount_bumpCount, if_pos rfl]
    dsimp only [Option.getD_some]
    omega
  have hcard : (grid2.pieceFinset p).card < g.win_length := by
    have hc2 := hInv2.counts p
    rw [show (g.apply_move p grid2 loc).grid = grid2 from rfl,
      show (g.apply_move p grid2 loc).moves_made = bumpCount g.moves_made p
        from rfl] at hc2
    omega
  show (ALL_DIRECTIONS.any fun d =>
    decide ((g.apply_move p grid2 loc).win_length ≤
      (g.apply_move p grid2 loc).grid.get_streak loc d)) = false
  rw [List.any_eq_false]
  intro d hd
  obtain ⟨⟨hd1, hd2, hd3, hd4⟩, hdnz⟩ := all_directions_unit d hd
  have hstreak := get_streak_le_card grid2 p loc d hInv2.width_lt hInv2.height_lt
    hInv2.wf hd1 hd2 hd3 hd4 hdnz hat
  simp only [decide_eq_true_eq]
  show ¬((g.apply_move p grid2 loc).win_length ≤
    (g.apply_move p grid2 loc).grid.get_streak loc d)
  rw [show (g.apply_move p grid2 loc).win_length = g.win_length from rfl,
    show (g.apply_move p grid2 loc).grid = grid2 from rfl]
  omega

/-- On any state satisfying the invariant, the implemented `make_move`
and the guard-free variant agree exactly (state and outcome). -/
theorem make_move_eq_variant (g : Game) (p : Player) (c : Nat) (hInv : Inv g) :
    g.make_move p c = g.make_move_variant p c := by
  unfold Game.make_move Game.make_move_variant
  cases hins : g.grid.insert_piece p c with
  | error o => rfl
  | ok res =>
    rcases res with ⟨grid2, loc⟩
    dsimp only
    cases hcw : (g.apply_move p grid2 loc).could_win p with
    | true => rw [Bool.true_and]
    | false =>
      have hsc := streak_check_false g p c grid2 loc hInv hins hcw
      rw [Bool.false_and, hsc]

/-- Every game built by `Game::new` from u32 dimensions whose cell count
also fits in a u32 satisfies the invariant. -/
theorem new_inv (w h z : Nat) (hw : w < U32) (hh : h < U32)
    (hwh : w * h < U32) (g : Game)
    (hg : Game.new w h z = .ok g) : Inv g := by
  unfold Game.new at hg
  split at hg
  · cases hg
  · cases hg
    constructor
    · show (List.replicate w ([] : List Player)).length < U32
      rw [List.length_replicate]
      exact hw
    · exact hh
    · show (List.replicate w ([] : List Player)).length * h < U32
      rw [List.length_replicate]
      exact hwh
    · intro i col hcol
      have hnil : col = [] := List.eq_of_mem_replicate (List.get?_mem hcol)
      simp [hnil]
    · intro p
      show ((Grid.with_dimensions w h).pieceFinset p).card = countOf [] p
      have hempty : (Grid.with_dimensions w h).pieceFinset p = ∅ := by
        ext ij
        simp [Grid.pieceFinset, with_dimensions_atLoc]
      rw [hempty]
      rfl

/-- The two replay loops agree on every invariant-satisfying start state. -/
theorem playAux_eq_variant : ∀ (moves : List Nat) (g : Game) (p : Nat), Inv g →
    playAux g p moves = playAuxVariant g p moves
  | [], _, _, _ => rfl
  | c :: rest, g, p, hInv => by
    have hmm := make_move_eq_variant g p c hInv
    simp only [playAux, playAuxVariant, ← hmm]
    rcases hm : g.make_move p c with ⟨g2, o⟩
    have hInv2 : Inv g2 := by
      have hi := make_move_inv g p c hInv
      rw [hm] at hi
      exact hi
    cases o with
    | none =>
      dsimp only
      exact playAux_eq_variant rest g2 (nextPlayer p) hInv2
    | some o1 => cases o1 <;> rfl

/-- C7, restricted to configurations whose cell count fits in a u32: for
every such match configuration and every move list, the replay outcome is
unchanged when the per-player move-count short-circuit is removed: the
variant that runs the four-direction scan after every successful
placement returns the same outcome as the implemented engine.  The cell
bound is what keeps the u32 `moves_made` counters exact: a player can
never place more pieces than the board has cells, so the counter never
reaches the wrap at 2 ^ 32.  On a board of at least 2 ^ 33 cells the
source counter does wrap (panicking in a debug build), `could_win` then
under-reads the mover's pieces and the guarded engine can skip a
qualifying scan the variant performs, so the unrestricted equivalence
fails there. -/
theorem play_variant_eq (w h z : Nat) (hw : w < U32) (hh : h < U32)
    (hwh : w * h < U32) (g : Game)
    (hg : Game.new w h z = .ok g) (moves : List Nat) :
    g.play moves = g.play_variant moves :=
  playAux_eq_variant moves g 1 (new_inv w h z hw hh hwh g hg)

/-- Witness for C7: the 3 by 3 run-3 game and the winning move list. -/
theorem play_variant_eq_witness :
    Game.play ⟨3, Grid.with_dimensions 3 3, [], none⟩ [0, 1, 0, 1, 0] =
      Game.play_variant ⟨3, Grid.with_dimensions 3 3, [], none⟩ [0, 1, 0, 1, 0] :=
  play_variant_eq 3 3 3 (by decide) (by decide) (by decide)
    ⟨3, Grid.with_dimensions 3 3, [], none⟩ rfl [0, 1, 0, 1, 0]

end ConnectZ
